import Mathlib

/-!
# PTheremin core: shallow embedding and verification

Shallow embedding of the core of `ptheremin.py` (the pitch quantizer
`discrete_tones`, the tone generator `tone_gen` inside
`PlaybackThread.run`, the playback loop, the recording buffer, and the
key-rotation of the note table), together with theorems checking the
natural-language specification against the code.

Python floats are modelled as rationals (`ℚ`); the transcendental
`math.sin` is kept abstract as a wave function parameter `w : ℚ → ℕ → ℚ`
(frequency, sample index ↦ raw sample), since the control flow of the
generator is independent of the particular waveform.
-/

namespace PTheremin

/-- Python's `int()` conversion: truncation toward zero. -/
def pyInt (q : ℚ) : ℤ := if 0 ≤ q then ⌊q⌋ else ⌈q⌉

/-! ## The quantizer `discrete_tones` (ptheremin.py lines 165-188)

```python
def discrete_tones(tones):
    def filt(x):
        closest = tones[0]
        err = 500000
        mean = 0
        iir = iir_2pole(-.9979871157, 1.997850878)   # dead: never used
        for i,tone in enumerate(tones):
            tone_err = abs(x - tone)
            if tone_err < err:
                closest = tone
                err = tone_err
            elif tone_err > err:
                if i > 0:
                    mean = (x - closest)/2
                break
        return closest + mean
    return filt
```

`filtScan` is the loop, carrying the enumeration index `i`, the running
`closest` and `err`; it returns the final `closest`, the final `mean`,
and (for stating the early-exit behaviour) the index at which `break`
fired, if any.  `filt` is the whole function; it is `none` on an empty
table, where Python would raise `IndexError` at `tones[0]`. -/

def filtScan (x : ℚ) : List ℚ → ℕ → ℚ → ℚ → ℚ × ℚ × Option ℕ
  | [], _, closest, _ => (closest, 0, none)
  | t :: ts, i, closest, err =>
    let tone_err := |x - t|
    if tone_err < err then
      filtScan x ts (i + 1) t tone_err
    else if err < tone_err then
      (closest, if 0 < i then (x - closest) / 2 else 0, some i)
    else
      filtScan x ts (i + 1) closest err

def filt (tones : List ℚ) (x : ℚ) : Option ℚ :=
  match tones with
  | [] => none
  | t0 :: ts =>
    let r := filtScan x (t0 :: ts) 0 t0 500000
    some (r.1 + r.2.1)

/-- The distance from `x` to its second-nearest entry of `tones`
(the spec's notion in §8): the second-smallest element of the multiset
of absolute errors; `none` when the table has fewer than two entries. -/
def secondNearestDist (tones : List ℚ) (x : ℚ) : Option ℚ :=
  ((tones.map fun t => |x - t|).insertionSort (· ≤ ·)).get? 1

/-! ## The tone generator (ptheremin.py lines 80-100)

```python
def tone_gen(fs):
    x = 0
    ft = self.ft
    sample = 0
    prev_sample = 0
    while 1:
        prev_sample = sample
        sample = sin(2*pi*ft*x/fs)
        if ft != self.ft and 0.01 > sample > -0.01 and prev_sample < sample:
            ft = self.ft
            x = 0
        x += 1
        yield sample*self.vol*0.95
```

`self.ft` (the pending target frequency, written by `set_new_freq`) and
`self.vol` are read fresh each iteration; they enter `genStep` as the
`pending` and `vol` arguments.  `w ft x` stands for `sin(2*pi*ft*x/fs)`. -/

structure GenState where
  x : ℕ
  ft : ℚ
  sample : ℚ
  prev_sample : ℚ
  deriving Repr, DecidableEq

/-- The initial generator state: `x = 0`, committed frequency the
initial `self.ft`, both sample registers 0. -/
def genInit (ft0 : ℚ) : GenState := ⟨0, ft0, 0, 0⟩

/-- One iteration of the generator loop: computes the sample, performs
the zero-crossing commit check, advances the index, and yields
`sample * vol * 0.95`. -/
def genStep (w : ℚ → ℕ → ℚ) (pending vol : ℚ) (s : GenState) :
    GenState × ℚ :=
  let prev := s.sample
  let smp := w s.ft s.x
  if s.ft ≠ pending ∧ smp < 1/100 ∧ -(1/100) < smp ∧ prev < smp then
    (⟨0 + 1, pending, smp, prev⟩, smp * vol * (95/100))
  else
    (⟨s.x + 1, s.ft, smp, prev⟩, smp * vol * (95/100))

/-! ## The playback loop and recording buffer (ptheremin.py lines 103-143)

```python
record_func = self.recording.append        # bound method, captured once
while self.alive:
    if not self.paused:
        while not free_func(): pass
        clean = tone.next()
        val_i = int(clean*(2**15 - 1))
        write_func(struct.pack("h", val_i))
        record_func(val_i)
    else:
        time.sleep(0.1)

def get_wav_data(self):  return self.recording
def clear_wav_data(self): self.recording = []
```

Reference semantics: `record_func` is the `append` bound method of the
buffer object that `self.recording` pointed to when `run` started.
`clear_wav_data` re-binds `self.recording` to a fresh empty list but
does not change what `record_func` appends to.  `captured` is the
buffer the loop's `record_func` targets; `recordingRef = none` means
`self.recording` still points to that same buffer, `some l` means it
was re-bound (by `clear_wav_data`) to a separate list `l`. -/

structure PTState where
  gen : GenState
  ft : ℚ
  vol : ℚ
  paused : Bool
  sink : List ℤ
  captured : List ℤ
  recordingRef : Option (List ℤ)
  deriving Repr, DecidableEq

/-- `get_wav_data`: returns the object `self.recording` points to. -/
def getWavData (s : PTState) : List ℤ :=
  match s.recordingRef with
  | none => s.captured
  | some l => l

/-- `clear_wav_data`: re-binds `self.recording` to a fresh empty list. -/
def clearWavData (s : PTState) : PTState :=
  { s with recordingRef := some [] }

/-- `set_new_freq`: overwrites the pending frequency and volume slot. -/
def setNewFreq (freq vol : ℚ) (s : PTState) : PTState :=
  { s with ft := freq, vol := vol }

/-- One iteration of the `while self.alive` loop body. -/
def loopIter (w : ℚ → ℕ → ℚ) (s : PTState) : PTState :=
  if s.paused then s
  else
    let r := genStep w s.ft s.vol s.gen
    let v := pyInt (r.2 * (2 ^ 15 - 1))
    { s with gen := r.1, sink := s.sink ++ [v], captured := s.captured ++ [v] }

/-! ## The note table and key rotation (ptheremin.py lines 36-52, 617-639)

```python
sharp = 1.05946
equal_temp_freqs = [16.352, 16.352*sharp, 18.354, 18.354*sharp, 20.602,
                    21.827, 21.827*sharp, 24.500, 24.500*sharp, 27.500,
                    27.500*sharp, 30.868]
NOTES = []
for octave in range(11):
    for label,freq in equal_temp_tuning:
        NOTES.append((label..., (2**octave)*freq))

# key_changed:
self.shifted_notes = list(NOTES)
for i in range(shifts[self.key]):
    self.shifted_notes.append(self.shifted_notes.pop(0))
```
-/

def sharp : ℚ := 105946 / 100000

def equal_temp_freqs : List ℚ :=
  [16352/1000, (16352/1000) * sharp, 18354/1000, (18354/1000) * sharp,
   20602/1000, 21827/1000, (21827/1000) * sharp, 24500/1000,
   (24500/1000) * sharp, 27500/1000, (27500/1000) * sharp, 30868/1000]

/-- The frequencies of the `NOTES` table: 11 octaves of the base row,
octave `o` scaled by `2^o`. -/
def notesFreqs : List ℚ :=
  (List.range 11).flatMap fun oct => equal_temp_freqs.map fun f => 2 ^ oct * f

/-- One step of the key-rotation loop: `lst.append(lst.pop(0))`. -/
def popAppend (l : List ℚ) : List ℚ :=
  match l with
  | [] => []
  | a :: t => t ++ [a]

/-- `key_changed`'s rotation: `for i in range(k): lst.append(lst.pop(0))`. -/
def rotateKey (k : ℕ) (l : List ℚ) : List ℚ :=
  match k with
  | 0 => l
  | k + 1 => popAppend (rotateKey k l)

/-! ## Theorems -/

/-- A tie step of the scan (`tone_err = err`) takes neither the `if`
branch nor the `elif` branch: it updates nothing and continues. -/
lemma filtScan_tie (x t : ℚ) (ts : List ℚ) (i : ℕ) (c e : ℚ)
    (h : |x - t| = e) :
    filtScan x (t :: ts) i c e = filtScan x ts (i + 1) c e := by
  simp [filtScan, h]

/-- C2: in the quantizer scan of `discrete_tones`, a tie (an index whose
absolute error equals the running minimum) neither updates the running
closest value nor terminates the scan; the scan breaks only at the first
index whose error strictly exceeds the running minimum.  On the table
`[100, 200, 300]` with input `150` the scan does not break at index 1,
breaks at index 2 (break index `some 2`, running closest still `100`),
and the filter returns `100 + (150 - 100)/2 = 125`. -/
theorem quantizer_tie_continues (x t : ℚ) (ts : List ℚ) (i : ℕ) (c e : ℚ)
    (h : |x - t| = e) :
    filtScan x (t :: ts) i c e = filtScan x ts (i + 1) c e ∧
    filtScan 150 [100, 200, 300] 0 100 500000 = (100, 25, some 2) ∧
    filt [100, 200, 300] 150 = some 125 :=
  ⟨filtScan_tie x t ts i c e h, by norm_num [filtScan], by norm_num [filt, filtScan]⟩

/-- Witness for C2: the tie step at index 1 of the `[100, 200, 300]` /
`150` run (error 50 equals the running minimum 50) continues the scan
unchanged. -/
theorem quantizer_tie_continues_witness :
    filtScan 150 [200, 300] 1 100 50 = filtScan 150 [300] 2 100 50 ∧
    filt [100, 200, 300] 150 = some 125 :=
  ⟨(quantizer_tie_continues 150 200 [300] 1 100 50 (by norm_num)).1,
   (quantizer_tie_continues 150 200 [300] 1 100 50 (by norm_num)).2.2⟩

/-- C8: when the input's distance to the first candidate exceeds the
initial error sentinel `500000`, the `elif` branch fires at index 0, so
the scan breaks immediately with `mean = 0` and the filter returns the
first (lowest) candidate tone exactly, whatever the rest of the table. -/
theorem quantizer_sentinel_break (x t0 : ℚ) (ts : List ℚ)
    (h : 500000 < |x - t0|) :
    filt (t0 :: ts) x = some t0 := by
  have h1 : ¬ |x - t0| < 500000 := not_lt.mpr h.le
  simp [filt, filtScan, h1, h]

/-- Witness for C8 at input `600001` against the table `[0, 3]`. -/
theorem quantizer_sentinel_break_witness :
    filt [0, 3] 600001 = some 0 :=
  quantizer_sentinel_break 600001 0 [3] (by norm_num)

/-- The final `mean` of a scan is `(x - closest)/2` exactly when the
scan broke at a positive index, and `0` when it broke at index 0 or ran
off the end of the table. -/
lemma filtScan_mean_spec (x : ℚ) :
    ∀ (l : List ℚ) (i : ℕ) (c e : ℚ),
      ((filtScan x l i c e).2.2 = none → (filtScan x l i c e).2.1 = 0) ∧
      (∀ j, (filtScan x l i c e).2.2 = some j →
        (filtScan x l i c e).2.1 =
          if 0 < j then (x - (filtScan x l i c e).1) / 2 else 0)
  | [], i, c, e => by simp [filtScan]
  | t :: ts, i, c, e => by
    by_cases h1 : |x - t| < e
    · simpa [filtScan, h1] using filtScan_mean_spec x ts (i + 1) t |x - t|
    · by_cases h2 : e < |x - t|
      · constructor
        · intro hnone
          simp [filtScan, h1, h2] at hnone
        · intro j hj
          simp only [filtScan, if_neg h1, if_pos h2] at hj ⊢
          cases hj
          rfl
      · simpa [filtScan, h1, h2] using filtScan_mean_spec x ts (i + 1) c e

/-- C4: the `discrete_tones` filter returns `closest + (x - closest)/2`
exactly when the scan terminates via the strict-increase break at an
index greater than 0, returns the running closest value unmodified when
the break is at index 0 or the scan runs off the table, and on a
single-element table returns that element unchanged for every input. -/
theorem quantizer_adjustment_rule (x t0 : ℚ) (ts : List ℚ) :
    (∀ j, (filtScan x (t0 :: ts) 0 t0 500000).2.2 = some j → 0 < j →
      filt (t0 :: ts) x =
        some ((filtScan x (t0 :: ts) 0 t0 500000).1 +
          (x - (filtScan x (t0 :: ts) 0 t0 500000).1) / 2)) ∧
    ((filtScan x (t0 :: ts) 0 t0 500000).2.2 = none ∨
        (filtScan x (t0 :: ts) 0 t0 500000).2.2 = some 0 →
      filt (t0 :: ts) x = some (filtScan x (t0 :: ts) 0 t0 500000).1) ∧
    filt [t0] x = some t0 := by
  obtain ⟨hnone, hsome⟩ := filtScan_mean_spec x (t0 :: ts) 0 t0 500000
  refine ⟨?_, ?_, ?_⟩
  · intro j hj hjpos
    simp [filt, hsome j hj, hjpos]
  · rintro (h | h)
    · simp [filt, hnone h]
    · simp [filt, hsome 0 h]
  · by_cases h1 : |x - t0| < 500000
    · simp [filt, filtScan, h1]
    · by_cases h2 : (500000 : ℚ) < |x - t0|
      · simp [filt, filtScan, h1, h2]
      · simp [filt, filtScan, h1, h2]

/-- Witness for C4: the `[100, 200, 300]` / `150` run breaks at index 2,
so the returned value is the half-way adjustment `125`; and the
single-element table `[44]` maps `7` to `44` unchanged. -/
theorem quantizer_adjustment_rule_witness :
    filt [100, 200, 300] 150 = some 125 ∧ filt [44] 7 = some 44 :=
  ⟨((quantizer_adjustment_rule 150 100 [200, 300]).1 2 (by norm_num [filtScan])
      (by decide)).trans (by norm_num [filtScan]),
   (quantizer_adjustment_rule 7 44 []).2.2⟩

/-- C5: within one generator iteration (one generated sample) the
committed frequency changes at most once, and it changes only when the
pending frequency differs from it, the sample just computed — the last
sample emitted at the old frequency, i.e. the sample previous to the
post-commit waveform — lies strictly inside the `±0.01` near-zero band,
and the waveform is rising there (the sample before it is strictly
smaller); the sample clock is reset to 0 exactly at a commit (and then
incremented, so it leaves the iteration as 1; without a commit it leaves
as `x + 1`, never reset). -/
theorem tone_gen_commit_rule (w : ℚ → ℕ → ℚ) (pending vol : ℚ) (s : GenState) :
    ((genStep w pending vol s).1.ft ≠ s.ft →
      s.ft ≠ pending ∧
      (genStep w pending vol s).1.ft = pending ∧
      -(1/100) < (genStep w pending vol s).1.sample ∧
      (genStep w pending vol s).1.sample < 1/100 ∧
      (genStep w pending vol s).1.prev_sample < (genStep w pending vol s).1.sample ∧
      (genStep w pending vol s).1.x = 1) ∧
    ((genStep w pending vol s).1.ft = s.ft →
      (genStep w pending vol s).1.x = s.x + 1) := by
  by_cases hc : s.ft ≠ pending ∧ w s.ft s.x < 1/100 ∧
      -(1/100) < w s.ft s.x ∧ s.sample < w s.ft s.x
  · have h1 : genStep w pending vol s =
        (⟨0 + 1, pending, w s.ft s.x, s.sample⟩, w s.ft s.x * vol * (95/100)) := by
      simp only [genStep]
      rw [if_pos hc]
    rw [h1]
    exact ⟨fun _ => ⟨hc.1, rfl, hc.2.2.1, hc.2.1, hc.2.2.2, rfl⟩,
      fun he => absurd he.symm hc.1⟩
  · have h1 : genStep w pending vol s =
        (⟨s.x + 1, s.ft, w s.ft s.x, s.sample⟩, w s.ft s.x * vol * (95/100)) := by
      simp only [genStep]
      rw [if_neg hc]
    rw [h1]
    exact ⟨fun hne => absurd rfl hne, fun _ => rfl⟩

/-- Witness for C5: with the constant wave `1/200`, pending frequency 7
and state `⟨x = 3, ft = 5, sample = -1/200, prev_sample = 0⟩` a commit
fires: the new committed frequency is 7 and the clock leaves as 1. -/
theorem tone_gen_commit_rule_witness :
    (5 : ℚ) ≠ 7 ∧
    (genStep (fun _ _ => 1/200) 7 1 ⟨3, 5, -(1/200), 0⟩).1.ft = 7 ∧
    -(1/100) < (genStep (fun _ _ => 1/200) 7 1 ⟨3, 5, -(1/200), 0⟩).1.sample ∧
    (genStep (fun _ _ => 1/200) 7 1 ⟨3, 5, -(1/200), 0⟩).1.sample < 1/100 ∧
    (genStep (fun _ _ => 1/200) 7 1 ⟨3, 5, -(1/200), 0⟩).1.prev_sample <
      (genStep (fun _ _ => 1/200) 7 1 ⟨3, 5, -(1/200), 0⟩).1.sample ∧
    (genStep (fun _ _ => 1/200) 7 1 ⟨3, 5, -(1/200), 0⟩).1.x = 1 :=
  (tone_gen_commit_rule (fun _ _ => 1/200) 7 1 ⟨3, 5, -(1/200), 0⟩).1
    (by norm_num [genStep])

/-- C10: at a commit step the generator still yields the sample computed
from the old committed frequency at the old index, and the next raw
sample is computed from the newly committed frequency at sample index 1
(the index was reset to 0 and incremented before the next computation),
so the post-commit waveform begins at `w f_new 1` — for the sine wave of
the code, `sin(2*pi*f_new/fs)` — rather than at index 0. -/
theorem tone_gen_commit_phase (w : ℚ → ℕ → ℚ) (pending vol : ℚ) (s : GenState)
    (h : (genStep w pending vol s).1.ft ≠ s.ft) :
    (genStep w pending vol s).2 = w s.ft s.x * vol * (95/100) ∧
    (genStep w pending vol s).1.sample = w s.ft s.x ∧
    (genStep w pending vol (genStep w pending vol s).1).1.sample = w pending 1 ∧
    (genStep w pending vol (genStep w pending vol s).1).2 =
      w pending 1 * vol * (95/100) := by
  by_cases hc : s.ft ≠ pending ∧ w s.ft s.x < 1/100 ∧
      -(1/100) < w s.ft s.x ∧ s.sample < w s.ft s.x
  · have h1 : genStep w pending vol s =
        (⟨0 + 1, pending, w s.ft s.x, s.sample⟩, w s.ft s.x * vol * (95/100)) := by
      simp only [genStep]
      rw [if_pos hc]
    rw [h1]
    refine ⟨rfl, rfl, ?_, ?_⟩ <;> simp [genStep]
  · have h1 : genStep w pending vol s =
        (⟨s.x + 1, s.ft, w s.ft s.x, s.sample⟩, w s.ft s.x * vol * (95/100)) := by
      simp only [genStep]
      rw [if_neg hc]
    rw [h1] at h
    exact absurd rfl h

/-- Witness for C10 at the same commit scenario as the C5 witness: the
commit-step yield is the old-frequency sample scaled by volume and
headroom, and the next raw sample is the wave at the new frequency and
index 1. -/
theorem tone_gen_commit_phase_witness :
    (genStep (fun _ _ => 1/200) 7 1 ⟨3, 5, -(1/200), 0⟩).2 = (1/200) * 1 * (95/100) ∧
    (genStep (fun _ _ => 1/200) 7 1
      (genStep (fun _ _ => 1/200) 7 1 ⟨3, 5, -(1/200), 0⟩).1).1.sample = 1/200 := by
  have h := tone_gen_commit_phase (fun _ _ => 1/200) 7 1 ⟨3, 5, -(1/200), 0⟩
    (by norm_num [genStep])
  exact ⟨h.1, h.2.2.1⟩

/-- C6: a non-paused iteration of the playback loop pulls exactly one
sample from the generator, converts it to one 16-bit integer
`int(clean * (2^15 - 1))`, writes that integer to the sink and appends
the very same integer to the recording target, leaving everything else
(including the pending-frequency slot and the recording reference)
untouched; a paused iteration changes nothing at all — no sample is
generated, written or recorded, and the oscillator state is preserved,
so resuming continues the waveform phase-continuously. -/
theorem playback_iteration (w : ℚ → ℕ → ℚ) (s : PTState) :
    (s.paused = true → loopIter w s = s) ∧
    (s.paused = false →
      loopIter w s =
        { s with
          gen := (genStep w s.ft s.vol s.gen).1,
          sink := s.sink ++ [pyInt ((genStep w s.ft s.vol s.gen).2 * (2 ^ 15 - 1))],
          captured :=
            s.captured ++ [pyInt ((genStep w s.ft s.vol s.gen).2 * (2 ^ 15 - 1))] }) := by
  constructor
  · intro hp
    simp [loopIter, hp]
  · intro hp
    simp [loopIter, hp]

/-- Witness for C6: a concrete non-paused iteration with the zero wave
appends the sample value 0 to both the sink and the recording target and
advances the oscillator clock. -/
theorem playback_iteration_witness :
    loopIter (fun _ _ => 0) ⟨⟨0, 5, 0, 0⟩, 5, 1, false, [], [], none⟩ =
      ⟨⟨1, 5, 0, 0⟩, 5, 1, false, [0], [0], none⟩ := by
  have h := (playback_iteration (fun _ _ => 0)
    ⟨⟨0, 5, 0, 0⟩, 5, 1, false, [], [], none⟩).2 rfl
  rw [h]
  norm_num [genStep, pyInt]

/-- Truncation toward zero of a rational bounded by `31128.65` in
absolute value lands in `[-31128, 31128]`. -/
lemma pyInt_bound (q : ℚ) (h : |q| ≤ 3112865/100) :
    -31128 ≤ pyInt q ∧ pyInt q ≤ 31128 := by
  obtain ⟨hlo, hhi⟩ := abs_le.mp h
  unfold pyInt
  split_ifs with h0
  · refine ⟨le_trans (by norm_num) (Int.floor_nonneg.mpr h0), ?_⟩
    have h2 : ⌊q⌋ ≤ ⌊(3112865 : ℚ)/100⌋ := Int.floor_mono hhi
    have h3 : ⌊(3112865 : ℚ)/100⌋ = 31128 := by norm_num
    omega
  · push_neg at h0
    have h2 : ⌈(-(3112865 : ℚ)/100)⌉ ≤ ⌈q⌉ := by
      apply Int.ceil_mono
      linarith
    have h3 : ⌈(-(3112865 : ℚ)/100)⌉ = -31128 := by norm_num [Int.ceil_eq_iff]
    have h4 : ⌈q⌉ ≤ ⌈(0 : ℚ)⌉ := Int.ceil_mono h0.le
    rw [Int.ceil_zero] at h4
    omega

/-- C9: provided the raw waveform stays in `[-1, 1]` (as `sin` does) and
the volume is in `[0, 1]`, every generator output `s` satisfies
`|s| ≤ 0.95 * volume`, and the integer written to the sink and recorded,
`int(s * (2^15 - 1))`, lies in `[-31128, 31128]` — strictly inside the
signed 16-bit range, in particular never `-32768`, so the conversion and
packing cannot overflow. -/
theorem sample_integer_range (w : ℚ → ℕ → ℚ) (pending vol : ℚ) (s : GenState)
    (hw : ∀ f n, |w f n| ≤ 1) (h0 : 0 ≤ vol) (h1 : vol ≤ 1) :
    |(genStep w pending vol s).2| ≤ (95/100) * vol ∧
    -31128 ≤ pyInt ((genStep w pending vol s).2 * (2 ^ 15 - 1)) ∧
    pyInt ((genStep w pending vol s).2 * (2 ^ 15 - 1)) ≤ 31128 ∧
    pyInt ((genStep w pending vol s).2 * (2 ^ 15 - 1)) ≠ -32768 := by
  have hout : (genStep w pending vol s).2 = w s.ft s.x * vol * (95/100) := by
    simp only [genStep]
    split_ifs <;> rfl
  have habs : |(genStep w pending vol s).2| ≤ (95/100) * vol := by
    rw [hout, abs_mul, abs_mul]
    have hv : |vol| = vol := abs_of_nonneg h0
    have h95 : |(95 : ℚ)/100| = 95/100 := by norm_num
    rw [hv, h95]
    calc |w s.ft s.x| * vol * (95/100) ≤ 1 * vol * (95/100) := by
          have := hw s.ft s.x
          nlinarith
      _ = (95/100) * vol := by ring
  have hq : |(genStep w pending vol s).2 * (2 ^ 15 - 1)| ≤ 3112865/100 := by
    rw [abs_mul]
    have h2 : |(2 : ℚ) ^ 15 - 1| = 32767 := by norm_num
    rw [h2]
    have : (95 : ℚ)/100 * vol ≤ 95/100 := by nlinarith
    nlinarith [abs_nonneg ((genStep w pending vol s).2)]
  obtain ⟨hb1, hb2⟩ := pyInt_bound _ hq
  exact ⟨habs, hb1, hb2, by omega⟩

/-- Witness for C9: the constant full-scale wave at volume 1 yields
output `19/20` and recorded integer `31128`, inside the safe range. -/
theorem sample_integer_range_witness :
    |(genStep (fun _ _ => 1) 5 1 ⟨0, 5, 0, 0⟩).2| ≤ (95/100) * 1 ∧
    -31128 ≤ pyInt ((genStep (fun _ _ => 1) 5 1 ⟨0, 5, 0, 0⟩).2 * (2 ^ 15 - 1)) ∧
    pyInt ((genStep (fun _ _ => 1) 5 1 ⟨0, 5, 0, 0⟩).2 * (2 ^ 15 - 1)) ≤ 31128 ∧
    pyInt ((genStep (fun _ _ => 1) 5 1 ⟨0, 5, 0, 0⟩).2 * (2 ^ 15 - 1)) ≠ -32768 :=
  sample_integer_range (fun _ _ => 1) 5 1 ⟨0, 5, 0, 0⟩
    (fun _ _ => by norm_num) (by norm_num) (by norm_num)

/-- C1 (the code's behaviour at the claim's scenario): `run` captures
`record_func = self.recording.append` once, before the loop, so after
`clear_wav_data` re-binds `self.recording` to a fresh empty list, the
samples of subsequent non-paused iterations are appended to the detached
pre-clear buffer; `get_wav_data()` keeps length 0 no matter how many
samples are emitted — here one iteration after a clear emits the
integer 15564 into the detached buffer while the observed buffer stays
empty, contradicting the specified length `N` after `N` iterations. -/
theorem clear_wav_data_detaches :
    getWavData (clearWavData ⟨⟨0, 5, 0, 0⟩, 5, 1, false, [], [7], none⟩) = [] ∧
    loopIter (fun _ _ => 1/2) (clearWavData ⟨⟨0, 5, 0, 0⟩, 5, 1, false, [], [7], none⟩) =
      ⟨⟨1, 5, 1/2, 0⟩, 5, 1, false, [15564], [7, 15564], some []⟩ ∧
    getWavData (⟨⟨1, 5, 1/2, 0⟩, 5, 1, false, [15564], [7, 15564], some []⟩ : PTState) = [] ∧
    ([] : List ℤ).length = 0 := by
  refine ⟨rfl, ?_, rfl, rfl⟩
  norm_num [clearWavData, loopIter, genStep, pyInt]

/-- Scan invariant: when the running `closest` attains the running
`err`, the remaining suffix is sorted, and `closest` is below every
remaining entry, the value the scan returns (`closest` plus the final
`mean`) is at least as close to `x` as the running closest and as every
remaining entry. -/
lemma filtScan_nearest (x : ℚ) :
    ∀ (l : List ℚ) (i : ℕ) (c e : ℚ),
      |x - c| = e →
      List.Sorted (· ≤ ·) l →
      (∀ t ∈ l, c ≤ t) →
      |x - ((filtScan x l i c e).1 + (filtScan x l i c e).2.1)| ≤ |x - c| ∧
      ∀ t ∈ l, |x - ((filtScan x l i c e).1 + (filtScan x l i c e).2.1)| ≤ |x - t|
  | [], i, c, e, h1, h2, h3 => by simp [filtScan]
  | t :: ts, i, c, e, h1, h2, h3 => by
    rw [List.sorted_cons] at h2
    obtain ⟨hhead, htail⟩ := h2
    by_cases hlt : |x - t| < e
    · have IH := filtScan_nearest x ts (i + 1) t |x - t| rfl htail hhead
      rw [show filtScan x (t :: ts) i c e = filtScan x ts (i + 1) t |x - t| by
        simp [filtScan, hlt]]
      have hte : |x - t| ≤ |x - c| := by rw [h1]; exact hlt.le
      refine ⟨IH.1.trans hte, ?_⟩
      intro u hu
      rcases List.mem_cons.mp hu with rfl | hu
      · exact IH.1
      · exact IH.2 u hu
    · by_cases hgt : e < |x - t|
      · rw [show filtScan x (t :: ts) i c e =
            (c, if 0 < i then (x - c) / 2 else 0, some i) by
          simp [filtScan, hlt, hgt]]
        have hres : |x - (c + if 0 < i then (x - c) / 2 else 0)| ≤ |x - c| := by
          split_ifs
          · rw [show x - (c + (x - c) / 2) = (x - c) / 2 by ring, abs_div]
            have h0 := abs_nonneg (x - c)
            rw [show |(2 : ℚ)| = 2 by norm_num]
            linarith
          · simp
        have hec : |x - c| = e := h1
        refine ⟨hres, ?_⟩
        intro u hu
        have hxt : x < t := by
          by_contra hle
          push_neg at hle
          have hct : c ≤ t := h3 t (List.mem_cons_self t ts)
          have : |x - t| ≤ |x - c| := by
            rw [abs_of_nonneg (by linarith : (0 : ℚ) ≤ x - t),
              abs_of_nonneg (by linarith : (0 : ℚ) ≤ x - c)]
            linarith
          rw [hec] at this
          exact absurd hgt (not_lt.mpr this)
        rcases List.mem_cons.mp hu with rfl | hu
        · exact hres.trans (by rw [hec]; exact hgt.le)
        · have htu : t ≤ u := hhead u hu
          have : |x - t| ≤ |x - u| := by
            rw [abs_of_nonpos (by linarith : x - t ≤ 0),
              abs_of_nonpos (by linarith : x - u ≤ 0)]
            linarith
          exact hres.trans (le_trans (by rw [hec]; exact hgt.le) this)
      · have hte : |x - t| = e := le_antisymm (not_lt.mp hgt) (not_lt.mp hlt)
        have IH := filtScan_nearest x ts (i + 1) c e h1 htail
          (fun u hu => h3 u (List.mem_cons_of_mem t hu))
        rw [show filtScan x (t :: ts) i c e = filtScan x ts (i + 1) c e by
          simp [filtScan, hlt, hgt]]
        refine ⟨IH.1, ?_⟩
        intro u hu
        rcases List.mem_cons.mp hu with rfl | hu
        · exact IH.1.trans (by rw [h1, ← hte])
        · exact IH.2 u hu

/-- C3 as stated is false on the code: the claim over every ascending
table and every in-span input fails because of the initial error
sentinel `500000`.  For the ascending table `[0, 600000, 600001]` and
the in-span input `600000.5`, the first scanned error `600000.5` already
exceeds the sentinel, so the scan breaks at index 0 and returns `0`,
whose distance `600000.5` from the input far exceeds the distance `0.5`
to the second-nearest entry. -/
theorem quantizer_second_nearest_cex :
    List.Sorted (· < ·) [(0 : ℚ), 600000, 600001] ∧
    (0 : ℚ) ≤ 1200001 / 2 ∧
    (1200001 : ℚ) / 2 ≤ [(0 : ℚ), 600000, 600001].getLastD 0 ∧
    filt [(0 : ℚ), 600000, 600001] (1200001 / 2) = some 0 ∧
    secondNearestDist [(0 : ℚ), 600000, 600001] (1200001 / 2) = some (1 / 2) ∧
    ¬ |(0 : ℚ) - 1200001 / 2| ≤ 1 / 2 := by
  refine ⟨?_, by norm_num, ?_, ?_, ?_, by norm_num [abs_neg, abs_of_nonneg]⟩
  · norm_num [List.sorted_cons]
  · norm_num [List.getLastD]
  · norm_num [filt, filtScan, abs_neg, abs_of_nonneg]
  · norm_num [secondNearestDist, List.insertionSort, List.orderedInsert,
      abs_neg, abs_of_nonneg]

/-- C3 amended: for every non-empty ascending candidate table and every
in-span input frequency whose distance to the first (lowest) table entry
is below the `500000` initial-error sentinel, the value returned by the
`discrete_tones` filter is at least as close to the input as the
second-nearest table entry (indeed as every table entry). -/
theorem quantizer_second_nearest (t0 : ℚ) (rest : List ℚ) (x r d : ℚ)
    (hsorted : List.Sorted (· < ·) (t0 :: rest))
    (hlo : t0 ≤ x) (hhi : x ≤ (t0 :: rest).getLastD 0)
    (hsent : |x - t0| < 500000)
    (hr : filt (t0 :: rest) x = some r)
    (hd : secondNearestDist (t0 :: rest) x = some d) :
    |r - x| ≤ d := by
  have hr' : r = (filtScan x (t0 :: rest) 0 t0 500000).1 +
      (filtScan x (t0 :: rest) 0 t0 500000).2.1 :=
    (Option.some.injEq _ _ ▸ hr).symm
  have hstep : filtScan x (t0 :: rest) 0 t0 500000 =
      filtScan x rest 1 t0 |x - t0| := by
    simp [filtScan, hsent]
  rw [hstep] at hr'
  obtain ⟨hhead, htail⟩ := List.sorted_cons.mp hsorted
  have main := filtScan_nearest x rest 1 t0 |x - t0| rfl
    (htail.le_of_lt) (fun u hu => (hhead u hu).le)
  have hall : ∀ u ∈ t0 :: rest, |x - r| ≤ |x - u| := by
    intro u hu
    rcases List.mem_cons.mp hu with rfl | hu
    · rw [hr']; exact main.1
    · rw [hr']; exact main.2 u hu
  have hdmem : d ∈ (t0 :: rest).map fun t => |x - t| :=
    (List.perm_insertionSort (· ≤ ·) _).mem_iff.mp (List.get?_mem hd)
  obtain ⟨u, hu, hud⟩ := List.mem_map.mp hdmem
  rw [abs_sub_comm] at hall
  rw [← hud]
  exact hall u hu

/-- Witness for C3 (amended) on the table `[100, 200, 300]` with input
`150`: the filter returns `125`, the second-nearest distance is `50`,
and `|125 - 150| ≤ 50`. -/
theorem quantizer_second_nearest_witness :
    |(125 : ℚ) - 150| ≤ 50 :=
  quantizer_second_nearest 100 [200, 300] 150 125 50
    (by norm_num [List.sorted_cons])
    (by norm_num)
    (by norm_num [List.getLastD])
    (by norm_num)
    (by norm_num [filt, filtScan])
    (by norm_num [secondNearestDist, List.insertionSort, List.orderedInsert])

/-- One `lst.append(lst.pop(0))` step is a left rotation by one. -/
lemma popAppend_eq_rotate (l : List ℚ) : popAppend l = l.rotate 1 := by
  cases l with
  | nil => simp [popAppend]
  | cons a t => simp [popAppend, List.rotate_cons_succ]

/-- `key_changed`'s loop rotates the whole list left by `k`. -/
lemma rotateKey_eq_rotate (k : ℕ) (l : List ℚ) : rotateKey k l = l.rotate k := by
  induction k with
  | zero => simp [rotateKey]
  | succ n ih =>
    rw [show rotateKey (n + 1) l = popAppend (rotateKey n l) from rfl, ih,
      popAppend_eq_rotate, List.rotate_rotate]

set_option maxRecDepth 10000

/-- A list with an adjacent pair that is not strictly increasing is not
sorted under `<`. -/
lemma not_sorted_of_junction (l : List ℚ) (i : ℕ) (hi : i < l.length - 1)
    (a b : ℚ) (ha : l.get ⟨i, by omega⟩ = a) (hb : l.get ⟨i + 1, by omega⟩ = b)
    (hab : ¬ a < b) : ¬ List.Sorted (· < ·) l := by
  intro hs
  have hp := List.chain'_iff_get.mp (List.chain'_iff_pairwise.mpr hs) i hi
  rw [ha, hb] at hp
  exact hab hp

/-- C7 is false on the code: `key_changed` rotates the *whole* 132-note
table (`for i in range(k): lst.append(lst.pop(0))`), not each 12-note
cycle separately, so for the key offset 9 (key 'A') the rotated table is
not in ascending frequency order: position 122 holds the top note
`2^10 * 30.868` and position 123 holds the bottom note `16.352`. -/
theorem key_rotation_ascending_cex :
    ¬ List.Sorted (· < ·) (rotateKey 9 notesFreqs) :=
  not_sorted_of_junction _ 122 (by decide) (2 ^ 10 * (30868 / 1000))
    (2 ^ 0 * (16352 / 1000)) rfl rfl (by norm_num)

/-- C7 amended: key rotation by `k` moves the first `k` elements of the
whole note table to the end of the table (a global left rotation, not a
per-12-note-cycle rotation), and for every offset `k` in `1..11` the
rotated 132-note table fails to be in ascending frequency order (order
breaks at the junction where the top octave meets the relocated bottom
notes). -/
theorem key_rotation_global :
    (∀ (k : ℕ) (l : List ℚ), k ≤ l.length →
      rotateKey k l = l.drop k ++ l.take k) ∧
    ∀ k : ℕ, 1 ≤ k → k ≤ 11 →
      ¬ List.Sorted (· < ·) (rotateKey k notesFreqs) := by
  constructor
  · intro k l hk
    rw [rotateKey_eq_rotate, List.rotate_eq_drop_append_take hk]
  · intro k h1 h2
    interval_cases k
    · exact not_sorted_of_junction _ 130 (by decide) (2 ^ 10 * (30868 / 1000))
        (2 ^ 0 * (16352 / 1000)) rfl rfl (by norm_num)
    · exact not_sorted_of_junction _ 129 (by decide) (2 ^ 10 * (30868 / 1000))
        (2 ^ 0 * (16352 / 1000)) rfl rfl (by norm_num)
    · exact not_sorted_of_junction _ 128 (by decide) (2 ^ 10 * (30868 / 1000))
        (2 ^ 0 * (16352 / 1000)) rfl rfl (by norm_num)
    · exact not_sorted_of_junction _ 127 (by decide) (2 ^ 10 * (30868 / 1000))
        (2 ^ 0 * (16352 / 1000)) rfl rfl (by norm_num)
    · exact not_sorted_of_junction _ 126 (by decide) (2 ^ 10 * (30868 / 1000))
        (2 ^ 0 * (16352 / 1000)) rfl rfl (by norm_num)
    · exact not_sorted_of_junction _ 125 (by decide) (2 ^ 10 * (30868 / 1000))
        (2 ^ 0 * (16352 / 1000)) rfl rfl (by norm_num)
    · exact not_sorted_of_junction _ 124 (by decide) (2 ^ 10 * (30868 / 1000))
        (2 ^ 0 * (16352 / 1000)) rfl rfl (by norm_num)
    · exact not_sorted_of_junction _ 123 (by decide) (2 ^ 10 * (30868 / 1000))
        (2 ^ 0 * (16352 / 1000)) rfl rfl (by norm_num)
    · exact not_sorted_of_junction _ 122 (by decide) (2 ^ 10 * (30868 / 1000))
        (2 ^ 0 * (16352 / 1000)) rfl rfl (by norm_num)
    · exact not_sorted_of_junction _ 121 (by decide) (2 ^ 10 * (30868 / 1000))
        (2 ^ 0 * (16352 / 1000)) rfl rfl (by norm_num)
    · exact not_sorted_of_junction _ 120 (by decide) (2 ^ 10 * (30868 / 1000))
        (2 ^ 0 * (16352 / 1000)) rfl rfl (by norm_num)

/-- Witness for C7 (amended): rotating `[5, 7, 9]` by 2 moves the first
two elements to the end, and the key-'D#' offset 3 leaves the note table
out of ascending order. -/
theorem key_rotation_global_witness :
    rotateKey 2 [(5 : ℚ), 7, 9] = [9, 5, 7] ∧
    ¬ List.Sorted (· < ·) (rotateKey 3 notesFreqs) :=
  ⟨(key_rotation_global.1 2 [5, 7, 9] (by norm_num)).trans rfl,
   key_rotation_global.2 3 (by norm_num) (by norm_num)⟩

end PTheremin
